import Mathlib

/-!
# Cloud Vault upload service (`sample-nodejs-app/src/index.js`)

A shallow embedding of the Express application: the multer stored-name rule, the upload
endpoint, the listing endpoint, the static retrieval mount and the fallback chain, over an
explicit model of the upload directory.  Time (`Date.now()`), the request line and the
directory contents are explicit inputs.
-/

namespace CloudVault

/-! ## Values and responses -/

/-- Payload bytes. -/
abbrev Bytes := List Nat

/-- JavaScript values handed to `res.json`. -/
inductive JsVal where
  | undefined
  | str (s : String)
  | num (n : Nat)
  | arr (items : List JsVal)
  | obj (fields : List (String × JsVal))

/-- Property access on an object value: `none` when the value has no such field. -/
def JsVal.field (k : String) : JsVal → Option JsVal
  | .obj fields => fields.lookup k
  | _ => none

/-- What a response carries. -/
inductive Body where
  | json (v : JsVal)
  | raw (content : Bytes)
  | indexHtml
  | redirect (location : String)
  | finalNotFound
  | finalBadRequest
  | empty

/-- Status code and body of a response. -/
structure Response where
  status : Nat
  body : Body

/-- Rendering of `req.get('host')` inside a template literal: an absent header prints as
`undefined`. -/
def templ : Option String → String
  | some s => s
  | none => "undefined"

/-! ## The multer stored-name rule (index.js lines 28-35) -/

/-- The file record multer hands to the storage callbacks. -/
structure FilePart where
  fieldname : String
  originalname : String
  encoding : String
  mimetype : String
  content : Bytes

/-- Embedding of `filename: (req, file, cb) => cb(null, Date.now() + '-' + file.originalname)`;
`now` is the value of `Date.now()`, an integer number of milliseconds printed in decimal. -/
def filename (now : Nat) (file : FilePart) : String :=
  Nat.repr now ++ "-" ++ file.originalname

/-! ## Path vocabulary used to state the naming properties -/

/-- The two path separators named by the specification. -/
def isSeparator (c : Char) : Bool := c == '/' || c == '\\'

/-- Whether a name contains a path separator. -/
def hasSeparator (s : String) : Bool := s.data.any isSeparator

/-- Splits a character list at every character satisfying `p`. -/
def splitAt (p : Char → Bool) : List Char → List (List Char)
  | [] => [[]]
  | c :: cs =>
    if p c then [] :: splitAt p cs
    else
      match splitAt p cs with
      | [] => [[c]]
      | seg :: segs => (c :: seg) :: segs

/-- The path segments of a name, split at both separators. -/
def segments (s : String) : List (List Char) := splitAt isSeparator s.data

/-- Whether a name has a `..` path segment. -/
def hasDotDotSegment (s : String) : Bool := (segments s).contains ['.', '.']

/-- A name that designates a direct child of the directory it is joined to: one segment,
which is neither empty nor `.` nor `..`. -/
def isDirectChildName (s : String) : Prop :=
  segments s = [s.data] ∧ s.data ≠ [] ∧ s.data ≠ ['.'] ∧ s.data ≠ ['.', '.']

/-! ## The upload directory -/

/-- A directory entry: a regular file with its bytes, or a subdirectory. -/
inductive Entry where
  | file (content : Bytes)
  | dir (children : List (String × Entry))

/-- Contents of a directory, keyed by entry name, in enumeration order. -/
abbrev Dir := List (String × Entry)

/-- An error object as seen by the callbacks (`err.message`). -/
structure JsError where
  message : String

/-- Model of `fs.readdir(uploadDir, cb)`: the names of all entries, files and
subdirectories alike; an error when the directory is missing (`none`). -/
def readdir : Option Dir → Except JsError (List String)
  | none => .error ⟨"ENOENT"⟩
  | some d => .ok (d.map Prod.fst)

/-- Replaces the entry called `name`, or appends a new one at the end. -/
def upsert (name : String) (e : Entry) : Dir → Dir
  | [] => [(name, e)]
  | (k, v) :: rest => if k = name then (name, e) :: rest else (k, v) :: upsert name e rest

/-- Model of the write multer's disk storage performs,
`fs.createWriteStream(path.join(destination, filename))` fed with the payload: it creates
the entry or truncates an existing regular file; it fails when the directory is missing or
the name designates a subdirectory.  The name multer passes is the stored name built from
a base name (see `basename`), a single path segment, so the entry written is the direct
child of that name. -/
def writeFile (root : Option Dir) (name : String) (content : Bytes) : Except JsError Dir :=
  match root with
  | none => .error ⟨"ENOENT"⟩
  | some d =>
    match d.lookup name with
    | some (.dir _) => .error ⟨"EISDIR"⟩
    | _ => .ok (upsert name (.file content) d)

/-! ## Requests -/

/-- Methods of the requests that reach the route table; an `OPTIONS` request is answered
by `cors()` before it (see `HttpMethod` and `server`). -/
inductive Method where
  | GET | HEAD | POST | PUT | PATCH | DELETE
  deriving DecidableEq

/-- The request path as the route table sees it, given by the registration it falls under
(`server` computes it from the path string); `uploads name` is a path under the `/uploads`
mount, `name` the decoded remainder after `/uploads/`; `other path` is a path under none of
the registrations. -/
inductive Target where
  | health
  | apiUpload
  | apiFiles
  | apiUsers
  | uploads (name : String)
  | other (path : String)

/-- A request as it reaches the route table (after `cors()` and `express.json()`). -/
structure Request where
  method : Method
  target : Target
  protocol : String
  host : Option String
  file : Option FilePart

/-- The file record (`req.file`) multer attaches after a successful write; `destination`
and `path` are left out. -/
structure MulterFile where
  fieldname : String
  originalname : String
  encoding : String
  mimetype : String
  filename : String
  size : Nat

/-- The record `req.file` as a JavaScript value. -/
def MulterFile.toJs (f : MulterFile) : JsVal :=
  .obj [("fieldname", .str f.fieldname), ("originalname", .str f.originalname),
    ("encoding", .str f.encoding), ("mimetype", .str f.mimetype),
    ("filename", .str f.filename), ("size", .num f.size)]

/-- Process configuration: `NODE_ENV`, and the built client bundle
(`fs.existsSync(clientDistPath)` with its contents) when there is one. -/
structure Config where
  nodeEnv : Option String
  frontend : Option Dir

/-! ## POST /api/upload (index.js lines 37, 47-58) -/

/-- Model of `upload.single('file')` over the disk storage of lines 28-35: without a file
part `req.file` stays unset and nothing is written; a part under another field is refused;
otherwise the payload is written under the name chosen by `filename`. -/
def uploadSingle (now : Nat) (root : Option Dir) (part : Option FilePart) :
    Except JsError (Option Dir × Option MulterFile) :=
  match part with
  | none => .ok (root, none)
  | some f =>
    if f.fieldname ≠ "file" then .error ⟨"Unexpected field"⟩
    else
      match writeFile root (filename now f) f.content with
      | .error e => .error e
      | .ok d =>
        .ok (some d, some
          ⟨f.fieldname, f.originalname, f.encoding, f.mimetype, filename now f,
            f.content.length⟩)

/-- The url built on line 52. -/
def fileUrl (req : Request) (file : MulterFile) : String :=
  req.protocol ++ "://" ++ templ req.host ++ "/uploads/" ++ file.filename

/-- The route handler of lines 48-58, given `req.file`. -/
def uploadHandler (req : Request) (file : Option MulterFile) : Response :=
  match file with
  | none => ⟨400, .json (.obj [("error", .str "No file uploaded")])⟩
  | some f =>
    ⟨200, .json (.obj [("message", .str "File uploaded successfully"),
      ("file", f.toJs), ("url", .str (fileUrl req f))])⟩

/-- The error-handling middleware of lines 85-91. -/
def errorHandler (cfg : Config) (err : JsError) : Response :=
  ⟨500, .json (.obj [("error", .str "Internal server error"),
    ("message", if cfg.nodeEnv = some "development" then .str err.message else .undefined)])⟩

/-- The whole `POST /api/upload` route: multer, then the handler, errors going to the
error-handling middleware.  Returns the directory afterwards and the response. -/
def postUpload (cfg : Config) (now : Nat) (root : Option Dir) (req : Request) :
    Option Dir × Response :=
  match uploadSingle now root req.file with
  | .error e => (root, errorHandler cfg e)
  | .ok (root', file) => (root', uploadHandler req file)

/-! ## GET /api/files (index.js lines 61-72) -/

/-- The `files.map` of lines 66-69. -/
def fileList (req : Request) (files : List String) : List JsVal :=
  files.map fun file =>
    .obj [("name", .str file),
      ("url", .str (req.protocol ++ "://" ++ templ req.host ++ "/uploads/" ++ file))]

/-- The `fs.readdir` callback of lines 62-71, given `(err, files)`. -/
def listCallback (req : Request) (result : Except JsError (List String)) : Response :=
  match result with
  | .error _ => ⟨500, .json (.obj [("error", .str "Unable to scan files")])⟩
  | .ok files => ⟨200, .json (.obj [("files", .arr (fileList req files))])⟩

/-- The whole `GET /api/files` route over the directory model. -/
def getFiles (root : Option Dir) (req : Request) : Response :=
  listCallback req (readdir root)

/-! ## GET /uploads/... (index.js line 40) and the fallback chain (lines 93-105) -/

/-- Lexical normalisation of a relative path (`path.normalize('./' + name)`): empty and
`.` segments are dropped, `..` removes the segment before it, and a `..` with nothing left
to remove is kept.  `stack` holds the segments kept so far, innermost first. -/
def normalizeSegs : List (List Char) → List (List Char) → List (List Char)
  | stack, [] => stack.reverse
  | stack, seg :: rest =>
    if seg = [] ∨ seg = ['.'] then normalizeSegs stack rest
    else if seg = ['.', '.'] then
      match stack with
      | [] => normalizeSegs [seg] rest
      | top :: below =>
        if top = ['.', '.'] then normalizeSegs (seg :: stack) rest
        else normalizeSegs below rest
    else normalizeSegs (seg :: stack) rest

/-- The normalised segments of a requested name, split at `/`. -/
def resolveName (name : String) : List (List Char) :=
  normalizeSegs [] (splitAt (fun c => c == '/') name.data)

/-- The traversal test of the static server: the normalised path still has a `..` piece
between separators (either slash). -/
def isUpPath (segs : List (List Char)) : Bool :=
  segs.any fun seg => (splitAt (fun c => c == '\\') seg).contains ['.', '.']

/-- Whether some segment is a dotfile name (longer than one character, starting with `.`);
the static server ignores such paths by default. -/
def containsDotFile (segs : List (List Char)) : Bool :=
  segs.any fun seg => decide (1 < seg.length) && seg.head? == some '.'

/-- The entry at a path below a directory; the empty path is the directory itself. -/
def lookupPath (d : Dir) : List String → Option Entry
  | [] => some (.dir d)
  | [n] => d.lookup n
  | n :: m :: rest =>
    match d.lookup n with
    | some (.dir children) => lookupPath children (m :: rest)
    | _ => none

/-- What the static middleware does with a request. -/
inductive StaticOutcome where
  | served (content : Bytes)
  | redirected
  | next

/-- Model of `express.static(dir)` with its default options for a plain `GET`/`HEAD` of
the decoded path `name` below the mount: a name with a NUL character, a name that
normalises to a path with a `..` piece, and a dotfile path are refused; a name with a
trailing slash (or empty) is looked up as `index.html` in that directory; a regular file is
served with its bytes; a directory is answered by a redirect.  Every refusal and every miss
falls through to the next middleware. -/
def serveStatic (root : Option Dir) (name : String) : StaticOutcome :=
  let segs := resolveName name
  if name.data.contains (Char.ofNat 0) then .next
  else if isUpPath segs then .next
  else if containsDotFile segs then .next
  else
    match root with
    | none => .next
    | some d =>
      if name.data = [] ∨ name.data.getLast? = some '/' then
        match lookupPath d (segs.map String.mk ++ ["index.html"]) with
        | some (.file content) => .served content
        | _ => .next
      else
        match lookupPath d (segs.map String.mk) with
        | some (.file content) => .served content
        | some (.dir _) => .redirected
        | none => .next

/-- Methods served by `app.get` routes and by the static middleware. -/
def isGetLike : Method → Bool
  | .GET | .HEAD => true
  | _ => false

/-- The request path below the site root, as seen by the client-bundle static
middleware. -/
def Target.path : Target → String
  | .health => "health"
  | .apiUpload => "api/upload"
  | .apiFiles => "api/files"
  | .apiUsers => "api/users"
  | .uploads name => "uploads/" ++ name
  | .other p => p

/-- Lines 93-105: with a built client bundle, its static files and then `index.html` for
every `GET`; without one, the JSON 404 handler. -/
def fallback (cfg : Config) (req : Request) : Response :=
  match cfg.frontend with
  | some dist =>
    if isGetLike req.method then
      match serveStatic (some dist) req.target.path with
      | .served content => ⟨200, .raw content⟩
      | .redirected => ⟨301, .redirect (req.target.path ++ "/")⟩
      | .next =>
        match dist.lookup "index.html" with
        | some (.file content) => ⟨200, .raw content⟩
        | _ => ⟨404, .finalNotFound⟩
    else ⟨404, .finalNotFound⟩
  | none => ⟨404, .json (.obj [("error", .str "Not found")])⟩

/-- The users of lines 75-82. -/
def usersBody : JsVal :=
  .obj [("users", .arr [
    .obj [("id", .num 1), ("name", .str "Alice"), ("email", .str "alice@example.com")],
    .obj [("id", .num 2), ("name", .str "Bob"), ("email", .str "bob@example.com")]])]

/-- The application: the middleware and routes of index.js in registration order.  `now`
is `Date.now()`, `iso` is `new Date().toISOString()`; the result is the upload directory
afterwards and the response. -/
def app (cfg : Config) (now : Nat) (iso : String) (root : Option Dir) (req : Request) :
    Option Dir × Response :=
  match req.target, req.method with
  | .uploads name, .GET | .uploads name, .HEAD =>
    match serveStatic root name with
    | .served content => (root, ⟨200, .raw content⟩)
    | .redirected => (root, ⟨301, .redirect ("/uploads/" ++ name ++ "/")⟩)
    | .next => (root, fallback cfg req)
  | .health, .GET | .health, .HEAD =>
    (root, ⟨200, .json (.obj [("status", .str "ok"), ("timestamp", .str iso)])⟩)
  | .apiUpload, .POST => postUpload cfg now root req
  | .apiFiles, .GET | .apiFiles, .HEAD => (root, getFiles root req)
  | .apiUsers, .GET | .apiUsers, .HEAD => (root, ⟨200, .json usersBody⟩)
  | _, _ => (root, fallback cfg req)

/-! ## Decimal rendering -/

/-- Value of a decimal digit character. -/
def digitVal (c : Char) : Nat := c.toNat - 48

/-- Reads a list of decimal digits back as a number. -/
def decodeDigits (cs : List Char) : Nat := cs.foldl (fun a c => 10 * a + digitVal c) 0

/-! ## The multipart parser in front of the stored-name rule -/

/-- Model of the base-name step of multer's multipart parser (index.js does not set
`preservePath`): of the file name the client sends, only what follows the last `/` or `\`
is kept, and a bare `.` or `..` becomes the empty name. -/
def basename (clientName : String) : String :=
  if (segments clientName).getLastD [] = ['.', '.'] ∨
      (segments clientName).getLastD [] = ['.'] then ""
  else String.mk ((segments clientName).getLastD [])

/-- The file record multer builds for a part the client sends under the file name
`clientName`: `originalname` is the base name of that file name (a part whose base name is
empty is not stored at all). -/
def receivedPart (fieldname clientName encoding mimetype : String) (content : Bytes) :
    FilePart :=
  ⟨fieldname, basename clientName, encoding, mimetype, content⟩

/-! ## The route table -/

/-- Whether a request falls under one of the registrations of lines 40-82: the `/uploads`
mount (any method), `GET /health`, `POST /api/upload`, `GET /api/files`, `GET /api/users`
(a `HEAD` is routed to the `GET` handler). -/
def matchesRoute (req : Request) : Bool :=
  match req.target, req.method with
  | .uploads _, _ => true
  | .health, .GET | .health, .HEAD => true
  | .apiUpload, .POST => true
  | .apiFiles, .GET | .apiFiles, .HEAD => true
  | .apiUsers, .GET | .apiUsers, .HEAD => true
  | _, _ => false

/-! ## The server in front of the route table (index.js lines 14-19) -/

/-- Methods of the requests the server receives. -/
inductive HttpMethod where
  | OPTIONS
  | routed (method : Method)

/-- A request as the server receives it: `path` is the pathname of the request url as
sent, `bodyError` the error `express.json()` raises on the body when it refuses it. -/
structure RawRequest where
  method : HttpMethod
  path : String
  bodyError : Option JsError
  protocol : String
  host : Option String
  file : Option FilePart

/-- Express compares paths without regard to ASCII case. -/
def lowerPath (path : String) : List Char := path.data.map Char.toLower

/-- Whether `path` matches the route path `route`: the same characters up to ASCII case,
with or without one trailing slash. -/
def isRoutePath (route path : String) : Bool :=
  lowerPath path == route.data || lowerPath path == route.data ++ ['/']

/-- Whether `path` is the mount point `/uploads` itself. -/
def isMountRoot (path : String) : Bool := lowerPath path == "/uploads".data

/-- What follows `/uploads/` in a path under the mount. -/
def mountRemainder (path : String) : Option String :=
  if (lowerPath path).take 9 = "/uploads/".data then some (String.mk (path.data.drop 9))
  else none

/-- Whether a method and a path fall under one of the registrations of lines 40-82: the
`/uploads` mount (any method), `GET /health`, `POST /api/upload`, `GET /api/files`,
`GET /api/users` (a `HEAD` is routed to the `GET` handler). -/
def registered (method : Method) (path : String) : Bool :=
  isMountRoot path || (mountRemainder path).isSome ||
  (isRoutePath "/health" path && isGetLike method) ||
  (isRoutePath "/api/upload" path && decide (method = .POST)) ||
  (isRoutePath "/api/files" path && isGetLike method) ||
  (isRoutePath "/api/users" path && isGetLike method)

/-- The answer to a request whose path has a malformed percent-escape: both static
middlewares refuse it; without a client bundle the JSON 404 handler answers, with one the
`*` route fails to decode its parameter. -/
def undecodable (cfg : Config) : Response :=
  match cfg.frontend with
  | some _ => ⟨400, .finalBadRequest⟩
  | none => ⟨404, .json (.obj [("error", .str "Not found")])⟩

/-- The server: `cors()` (line 18) answers every `OPTIONS` request with 204; an error of
`express.json()` (line 19) goes to the error-handling middleware; every other request is
handed to the route table under the registration its path matches.  `decode` is
`decodeURIComponent`, `none` where it throws. -/
def server (decode : String → Option String) (cfg : Config) (now : Nat) (iso : String)
    (root : Option Dir) (raw : RawRequest) : Option Dir × Response :=
  match raw.method with
  | .OPTIONS => (root, ⟨204, .empty⟩)
  | .routed m =>
    match raw.bodyError with
    | some err => (root, errorHandler cfg err)
    | none =>
      if isRoutePath "/health" raw.path then
        app cfg now iso root ⟨m, .health, raw.protocol, raw.host, raw.file⟩
      else if isRoutePath "/api/upload" raw.path then
        app cfg now iso root ⟨m, .apiUpload, raw.protocol, raw.host, raw.file⟩
      else if isRoutePath "/api/files" raw.path then
        app cfg now iso root ⟨m, .apiFiles, raw.protocol, raw.host, raw.file⟩
      else if isRoutePath "/api/users" raw.path then
        app cfg now iso root ⟨m, .apiUsers, raw.protocol, raw.host, raw.file⟩
      else if isMountRoot raw.path then
        if isGetLike m && root.isSome then (root, ⟨301, .redirect (raw.path ++ "/")⟩)
        else (root, fallback cfg ⟨m, .other raw.path, raw.protocol, raw.host, raw.file⟩)
      else
        match mountRemainder raw.path with
        | some rest =>
          match decode rest with
          | some name =>
            app cfg now iso root ⟨m, .uploads name, raw.protocol, raw.host, raw.file⟩
          | none => (root, undecodable cfg)
        | none =>
          match decode raw.path with
          | some path =>
            app cfg now iso root ⟨m, .other path, raw.protocol, raw.host, raw.file⟩
          | none => (root, undecodable cfg)

/-! ## The client upload controller (frontend/src/App.jsx) -/

/-- A file chosen in the browser (`File`): its name and bytes. -/
structure ClientFile where
  name : String
  content : Bytes

/-- An entry of the displayed catalog. -/
structure CatalogEntry where
  name : String
  url : String

/-- The component state of lines 6-8. -/
structure UiState where
  files : List CatalogEntry
  dragActive : Bool
  message : String

/-- The state the component starts in: `useState([])`, `useState(false)`,
`useState('')`. -/
def initialState : UiState := ⟨[], false, ""⟩

/-- What a handler does, in program order: state setters, requests sent, the call of
`fetchFiles`, and `console.error`. -/
inductive Effect where
  | setFiles (files : List CatalogEntry)
  | setDragActive (active : Bool)
  | setMessage (message : String)
  | sendUpload (file : ClientFile)
  | callFetchFiles
  | sendList
  | logError

/-- How the awaited upload request of `handleFile` ends: `fetch` throws, the response is
not ok, `response.json()` fails, or the body parses. -/
inductive UploadOutcome where
  | threw
  | notOk
  | badBody
  | ok

/-- How the awaited listing request of `fetchFiles` ends; `nullBody` is a body that parses
to `null` (reading `data.files` throws), `ok files` a parsed object with its `files`
field when it has a truthy one. -/
inductive ListOutcome where
  | threw
  | notOk
  | badBody
  | nullBody
  | ok (files : Option (List CatalogEntry))

/-- Effect of one step on the component state. -/
def applyEffect (s : UiState) : Effect → UiState
  | .setFiles files => ⟨files, s.dragActive, s.message⟩
  | .setDragActive active => ⟨s.files, active, s.message⟩
  | .setMessage message => ⟨s.files, s.dragActive, message⟩
  | .sendUpload _ => s
  | .callFetchFiles => s
  | .sendList => s
  | .logError => s

/-- The state after a sequence of steps. -/
def run (s : UiState) (effects : List Effect) : UiState := effects.foldl applyEffect s

/-- The part of `fetchFiles` (lines 17-27) up to its `await`: the request is sent. -/
def fetchFilesStart : List Effect := [.sendList]

/-- The part of `fetchFiles` after the request has ended. -/
def fetchFilesSettled : ListOutcome → List Effect
  | .ok (some files) => [.setFiles files]
  | .ok none => [.setFiles []]
  | _ => [.logError, .setMessage "Failed to load files. Is the backend running?"]

/-- Embedding of `handleDrag` (lines 29-37), given `e.type`. -/
def handleDrag (type : String) : List Effect :=
  if type = "dragenter" ∨ type = "dragover" then [.setDragActive true]
  else if type = "dragleave" then [.setDragActive false]
  else []

/-- The part of `handleFile` (lines 55-76) up to its first `await`: the message is set,
then the request is sent. -/
def handleFileStart (file : ClientFile) : List Effect :=
  [.setMessage ("Uploading " ++ file.name ++ "..."), .sendUpload file]

/-- The part of `handleFile` after the upload request has ended. -/
def handleFileSettled (file : ClientFile) : UploadOutcome → List Effect
  | .ok => [.setMessage ("Successfully uploaded " ++ file.name ++ "!"), .callFetchFiles]
  | _ => [.logError, .setMessage "Upload failed. Please try again."]

/-- The whole of `handleFile` for a given end of its upload request, in program order. -/
def handleFile (file : ClientFile) (outcome : UploadOutcome) : List Effect :=
  handleFileStart file ++ handleFileSettled file outcome

/-- The test `files && files[0]` of lines 43 and 50: the first file of a present,
non-empty list. -/
def firstFile : Option (List ClientFile) → Option ClientFile
  | some (file :: _) => some file
  | _ => none

/-- Embedding of `handleDrop` (lines 39-46), given `e.dataTransfer.files`, up to the
`await` inside `handleFile`. -/
def handleDrop (files : Option (List ClientFile)) : List Effect :=
  .setDragActive false ::
    match firstFile files with
    | some file => handleFileStart file
    | none => []

/-- Embedding of `handleChange` (lines 48-53), given `e.target.files`, up to the `await`
inside `handleFile`. -/
def handleChange (files : Option (List ClientFile)) : List Effect :=
  match firstFile files with
  | some file => handleFileStart file
  | none => []

/-- The uploads started by a sequence of steps. -/
def uploadsIn : List Effect → List ClientFile
  | [] => []
  | .sendUpload file :: rest => file :: uploadsIn rest
  | _ :: rest => uploadsIn rest

/-- The number of catalog refreshes (`fetchFiles()` calls) in a sequence of steps. -/
def refreshesIn : List Effect → Nat
  | [] => 0
  | .callFetchFiles :: rest => refreshesIn rest + 1
  | _ :: rest => refreshesIn rest

/-- What the single-threaded event loop runs, one piece at a time: the mount effect, the
bound event handlers, and the continuations of the two awaited requests. -/
inductive ClientEvent where
  | mount
  | drag (type : String)
  | drop (files : Option (List ClientFile))
  | change (files : Option (List ClientFile))
  | uploadSettled (file : ClientFile) (outcome : UploadOutcome)
  | listSettled (outcome : ListOutcome)

/-- The steps a piece performs; a `fetchFiles()` call runs up to its `await` at once. -/
def effectsOf : ClientEvent → List Effect
  | .mount => .callFetchFiles :: fetchFilesStart
  | .drag type => handleDrag type
  | .drop files => handleDrop files
  | .change files => handleChange files
  | .uploadSettled file outcome => handleFileSettled file outcome ++
      (match outcome with
        | .ok => fetchFilesStart
        | _ => [])
  | .listSettled outcome => fetchFilesSettled outcome

/-- The component state after one piece. -/
def step (s : UiState) (e : ClientEvent) : UiState := run s (effectsOf e)

/-- The component state after a sequence of pieces. -/
def runEvents (s : UiState) (events : List ClientEvent) : UiState := events.foldl step s

/-- What a piece says about dragging, read off the claim: a `dragenter`/`dragover` says
dragging, a `dragleave` and a drop say not dragging, anything else says nothing. -/
def dragSignal : ClientEvent → Option Bool
  | .drag type =>
    if type = "dragenter" ∨ type = "dragover" then some true
    else if type = "dragleave" then some false
    else none
  | .drop _ => some false
  | _ => none

/-- The last thing a sequence of pieces says about dragging, if it says anything. -/
def lastDragSignal : List ClientEvent → Option Bool
  | [] => none
  | e :: rest =>
    match lastDragSignal rest with
    | some b => some b
    | none => dragSignal e

/-! ## Sample data -/

/-- An upload part named `a.txt` carrying the bytes of `hello`. -/
def helloPart : FilePart := ⟨"file", "a.txt", "7bit", "text/plain", [104, 101, 108, 108, 111]⟩

/-- An upload part named `a.txt` carrying the bytes of `world`. -/
def worldPart : FilePart := ⟨"file", "a.txt", "7bit", "text/plain", [119, 111, 114, 108, 100]⟩

/-- An upload part named `b.txt`. -/
def otherPart : FilePart := ⟨"file", "b.txt", "7bit", "text/plain", [120]⟩

/-- An upload request carrying `part`. -/
def uploadOf (part : Option FilePart) : Request :=
  ⟨.POST, .apiUpload, "http", some "localhost:3000", part⟩

/-- A listing request. -/
def listingRequest : Request := ⟨.GET, .apiFiles, "http", some "localhost:3000", none⟩

/-- A retrieval request for `name` under `/uploads/`. -/
def fetchOf (name : String) : Request :=
  ⟨.GET, .uploads name, "http", some "localhost:3000", none⟩

/-- A configuration without a built client bundle. -/
def bareConfig : Config := ⟨none, none⟩

/-- The request of the test `GET /notfound`, as the server receives it. -/
def rawNotFound : RawRequest :=
  ⟨.routed .GET, "/notfound", none, "http", some "localhost:3000", none⟩

/-- A file chosen in the browser. -/
def photoFile : ClientFile := ⟨"photo.png", [137, 80]⟩

/-- A second file chosen in the browser. -/
def notesFile : ClientFile := ⟨"notes.txt", [110]⟩

/-- An upload directory with one upload and a dotfile, whose parent directory, reachable
under the name `..`, holds a file that is not an upload. -/
def guardedDir : Dir :=
  [("1700000000000-a.txt", .file [104, 101, 108, 108, 111]), (".env", .file [83, 61, 49]),
    ("..", .dir [("secret.txt", .file [115, 101, 99])])]

/-- A configuration with a built client bundle holding only `index.html`. -/
def bundledConfig : Config := ⟨some "production", some [("index.html", .file [60, 33])]⟩

/-! ## Lemmas on the decimal rendering of the timestamp -/

theorem digitVal_digitChar (m : Nat) (h : m < 10) : digitVal (Nat.digitChar m) = m := by
  interval_cases m <;> rfl

theorem digitChar_isDigit (m : Nat) (h : m < 10) : (Nat.digitChar m).isDigit = true := by
  interval_cases m <;> rfl

theorem decodeDigits_snoc (pre : List Char) (d : Char) :
    decodeDigits (pre ++ [d]) = 10 * decodeDigits pre + digitVal d := by
  simp [decodeDigits, List.foldl_append]

/-- The digit loop puts, in front of the digits already produced, a block of decimal
digits that reads back as `n`. -/
theorem toDigitsCore_spec : ∀ (fuel n : Nat) (ds : List Char), n < fuel →
    ∃ pre, Nat.toDigitsCore 10 fuel n ds = pre ++ ds ∧ decodeDigits pre = n ∧
      ∀ c ∈ pre, c.isDigit = true := by
  intro fuel
  induction fuel with
  | zero => intro n ds h; omega
  | succ fuel ih =>
    intro n ds h
    simp only [Nat.toDigitsCore]
    have hd := digitVal_digitChar _ (Nat.mod_lt n (by decide : 10 > 0))
    have hi := digitChar_isDigit _ (Nat.mod_lt n (by decide : 10 > 0))
    by_cases h0 : n / 10 = 0
    · refine ⟨[Nat.digitChar (n % 10)], by simp [h0], ?_, ?_⟩
      · have hlt : n < 10 := by omega
        simp only [decodeDigits, List.foldl, Nat.mul_zero, Nat.zero_add]
        rw [hd, Nat.mod_eq_of_lt hlt]
      · intro c hc
        simp only [List.mem_singleton] at hc
        subst hc
        exact hi
    · obtain ⟨pre, hpre, hval, hdig⟩ := ih (n / 10) (Nat.digitChar (n % 10) :: ds) (by omega)
      refine ⟨pre ++ [Nat.digitChar (n % 10)], by simp [h0, hpre], ?_, ?_⟩
      · rw [decodeDigits_snoc, hval, hd]
        omega
      · intro c hc
        rcases List.mem_append.mp hc with hc | hc
        · exact hdig c hc
        · simp only [List.mem_singleton] at hc
          subst hc
          exact hi

theorem repr_data_spec (n : Nat) :
    decodeDigits (Nat.repr n).data = n ∧ ∀ c ∈ (Nat.repr n).data, c.isDigit = true := by
  obtain ⟨pre, hpre, hval, hdig⟩ := toDigitsCore_spec (n + 1) n [] (by omega)
  have hdata : (Nat.repr n).data = pre := by
    simp [Nat.repr, Nat.toDigits, List.asString, hpre]
  rw [hdata]
  exact ⟨hval, hdig⟩

theorem repr_injective {a b : Nat} (h : Nat.repr a = Nat.repr b) : a = b := by
  have ha := (repr_data_spec a).1
  have hb := (repr_data_spec b).1
  rw [h] at ha
  omega

theorem isDigit_ne_dash (c : Char) (h : c.isDigit = true) : c ≠ '-' := by
  intro hc
  subst hc
  exact absurd h (by decide)

theorem isDigit_not_separator (c : Char) (h : c.isDigit = true) : isSeparator c = false := by
  by_contra hs
  have hs' : ¬c = '/' → c = '\\' := by
    simpa [isSeparator] using hs
  by_cases hc : c = '/'
  · subst hc
    exact absurd h (by decide)
  · have hb := hs' hc
    subst hb
    exact absurd h (by decide)

/-- A list is cut in only one way at the first occurrence of `c`. -/
theorem split_unique (c : Char) : ∀ (xs ys r s : List Char), c ∉ xs → c ∉ ys →
    xs ++ c :: r = ys ++ c :: s → xs = ys ∧ r = s := by
  intro xs
  induction xs with
  | nil =>
    intro ys r s _ hy h
    cases ys with
    | nil => simpa using h
    | cons y ys =>
      simp only [List.nil_append, List.cons_append, List.cons.injEq] at h
      exact absurd (h.1 ▸ List.mem_cons_self _ _) hy
  | cons x xs ih =>
    intro ys r s hx hy h
    cases ys with
    | nil =>
      simp only [List.nil_append, List.cons_append, List.cons.injEq] at h
      exact absurd (h.1 ▸ List.mem_cons_self _ _) hx
    | cons y ys =>
      simp only [List.cons_append, List.cons.injEq] at h
      obtain ⟨hxy, hrest⟩ := h
      have hrec := ih ys r s (fun hm => hx (List.mem_cons_of_mem _ hm))
        (fun hm => hy (List.mem_cons_of_mem _ hm)) hrest
      exact ⟨by rw [hxy, hrec.1], hrec.2⟩

theorem filename_data (now : Nat) (file : FilePart) :
    (filename now file).data = (Nat.repr now).data ++ '-' :: file.originalname.data := by
  simp [filename, String.data_append]

/-- A stored name determines the timestamp and the original name it was built from. -/
theorem storedName_split (t1 t2 : Nat) (f g : FilePart)
    (h : filename t1 f = filename t2 g) : t1 = t2 ∧ f.originalname = g.originalname := by
  have hdata := congrArg String.data h
  rw [filename_data, filename_data] at hdata
  have hcut := split_unique '-' _ _ _ _
    (fun hm => isDigit_ne_dash _ ((repr_data_spec t1).2 _ hm) rfl)
    (fun hm => isDigit_ne_dash _ ((repr_data_spec t2).2 _ hm) rfl) hdata
  exact ⟨repr_injective (String.ext hcut.1), String.ext hcut.2⟩

/-! ## Lemmas on the upload route -/

/-- A write that succeeds found the directory and put the entry into it. -/
theorem writeFile_ok (root : Option Dir) (name : String) (content : Bytes) (d' : Dir)
    (h : writeFile root name content = .ok d') :
    ∃ d, root = some d ∧ d' = upsert name (.file content) d := by
  cases root with
  | none => simp [writeFile] at h
  | some d =>
    refine ⟨d, rfl, ?_⟩
    unfold writeFile at h
    split at h
    · simp at h
    · rename_i d0 hd0
      cases hd0
      split at h
      · simp at h
      · simpa using h.symm

/-- A successful upload response comes from a written file part. -/
theorem postUpload_success (cfg : Config) (now : Nat) (root : Option Dir) (req : Request)
    (h : (postUpload cfg now root req).2.status = 200) :
    ∃ f d, req.file = some f ∧ root = some d ∧
      postUpload cfg now root req =
        (some (upsert (filename now f) (.file f.content) d),
          uploadHandler req (some ⟨f.fieldname, f.originalname, f.encoding, f.mimetype,
            filename now f, f.content.length⟩)) := by
  unfold postUpload uploadSingle at *
  cases hf : req.file with
  | none => simp [hf, uploadHandler] at h
  | some f =>
    simp only [hf] at h ⊢
    by_cases hfield : f.fieldname ≠ "file"
    · simp [hfield, errorHandler] at h
    · simp only [hfield, if_false] at h ⊢
      cases hw : writeFile root (filename now f) f.content with
      | error e => simp [hw, errorHandler] at h
      | ok d' =>
        obtain ⟨d, hroot, hd'⟩ := writeFile_ok _ _ _ _ hw
        exact ⟨f, d, rfl, hroot, by simp [hd']⟩

/-- C1 (counterexample): two uploads of `a.txt` handled in the same millisecond both
succeed and are assigned one and the same stored name. -/
theorem same_instant_uploads_collide :
    (postUpload bareConfig 1700000000000 (some []) (uploadOf (some helloPart))).2.status = 200 ∧
    (postUpload bareConfig 1700000000000
      (postUpload bareConfig 1700000000000 (some []) (uploadOf (some helloPart))).1
      (uploadOf (some worldPart))).2.status = 200 ∧
    filename 1700000000000 helloPart = filename 1700000000000 worldPart := by
  refine ⟨by rfl, by rfl, by rfl⟩

/-- C1 (amended): two uploads whose `Date.now()` values differ or whose original names
differ are assigned different stored names by the multer filename rule. -/
theorem stored_names_differ (t1 t2 : Nat) (f g : FilePart)
    (h : t1 ≠ t2 ∨ f.originalname ≠ g.originalname) : filename t1 f ≠ filename t2 g := by
  intro heq
  have hsplit := storedName_split t1 t2 f g heq
  rcases h with h | h
  · exact h hsplit.1
  · exact h hsplit.2

theorem stored_names_differ_witness :
    ((1700000000000 : Nat) ≠ 1700000000001 ∨ helloPart.originalname ≠ worldPart.originalname) ∧
    filename 1700000000000 helloPart ≠ filename 1700000000001 worldPart :=
  ⟨Or.inl (by decide),
    stored_names_differ 1700000000000 1700000000001 helloPart worldPart (Or.inl (by decide))⟩

/-- C2: a `POST /api/upload` without a file part is answered 400 with
`{error: 'No file uploaded'}`, and the upload directory is left exactly as it was. -/
theorem upload_without_file (cfg : Config) (now : Nat) (iso : String) (root : Option Dir)
    (req : Request) (hm : req.method = .POST) (ht : req.target = .apiUpload)
    (hf : req.file = none) :
    app cfg now iso root req =
      (root, ⟨400, .json (.obj [("error", .str "No file uploaded")])⟩) := by
  obtain ⟨m, t, p, h, f⟩ := req
  simp only at hm ht hf
  subst hm ht hf
  rfl

theorem upload_without_file_witness :
    (uploadOf none).method = .POST ∧
    app bareConfig 1700000000000 "2023-11-14T22:13:20.000Z" (some [("1-x", .file [1])])
        (uploadOf none) =
      (some [("1-x", .file [1])], ⟨400, .json (.obj [("error", .str "No file uploaded")])⟩) :=
  ⟨rfl, upload_without_file bareConfig 1700000000000 "2023-11-14T22:13:20.000Z"
    (some [("1-x", .file [1])]) (uploadOf none) rfl rfl rfl⟩

/-! ## Lemmas on path segments -/

theorem splitAt_of_none (p : Char → Bool) : ∀ (l : List Char),
    (∀ c ∈ l, p c = false) → splitAt p l = [l] := by
  intro l
  induction l with
  | nil => intro _; rfl
  | cons c cs ih =>
    intro h
    have hc : p c = false := h c (List.mem_cons_self _ _)
    have hcs := ih (fun x hx => h x (List.mem_cons_of_mem _ hx))
    simp [splitAt, hc, hcs]

theorem normalizeSegs_single (seg : List Char) (h1 : seg ≠ []) (h2 : seg ≠ ['.'])
    (h3 : seg ≠ ['.', '.']) : normalizeSegs [] [seg] = [seg] := by
  simp [normalizeSegs, h1, h2, h3]

theorem dash_mem_filename (now : Nat) (file : FilePart) : '-' ∈ (filename now file).data := by
  rw [filename_data]
  exact List.mem_append_right _ (List.mem_cons_self _ _)

theorem filename_no_separator (now : Nat) (file : FilePart)
    (h : hasSeparator file.originalname = false) :
    ∀ c ∈ (filename now file).data, isSeparator c = false := by
  intro c hc
  rw [filename_data] at hc
  rcases List.mem_append.mp hc with hc | hc
  · exact isDigit_not_separator c ((repr_data_spec now).2 c hc)
  · rcases List.mem_cons.mp hc with hc | hc
    · subst hc
      decide
    · have hall : ∀ x ∈ file.originalname.data, isSeparator x = false := by
        simpa [hasSeparator] using h
      exact hall c hc

/-- The stored name is the decimal timestamp, a dash and the original name copied
verbatim; when the original name has no path separator, the stored name has no path
separator and no `..` segment, is a single segment other than `.` and `..`, and resolves to
itself below the storage root. -/
theorem stored_name_verbatim (now : Nat) (file : FilePart) :
    filename now file = Nat.repr now ++ "-" ++ file.originalname ∧
    (hasSeparator file.originalname = false →
      hasSeparator (filename now file) = false ∧
      hasDotDotSegment (filename now file) = false ∧
      isDirectChildName (filename now file) ∧
      resolveName (filename now file) = [(filename now file).data]) := by
  refine ⟨rfl, fun h => ?_⟩
  have hall := filename_no_separator now file h
  have hdash := dash_mem_filename now file
  have hne1 : (filename now file).data ≠ [] := by
    intro he
    rw [he] at hdash
    exact absurd hdash (by decide)
  have hne2 : (filename now file).data ≠ ['.'] := by
    intro he
    rw [he] at hdash
    exact absurd hdash (by decide)
  have hne3 : (filename now file).data ≠ ['.', '.'] := by
    intro he
    rw [he] at hdash
    exact absurd hdash (by decide)
  have hseg : segments (filename now file) = [(filename now file).data] :=
    splitAt_of_none _ _ hall
  refine ⟨?_, ?_, ⟨hseg, hne1, hne2, hne3⟩, ?_⟩
  · simpa [hasSeparator] using hall
  · simp only [hasDotDotSegment, hseg]
    simpa using Ne.symm hne3
  · have hslash : ∀ c ∈ (filename now file).data, (fun c => c == '/') c = false := by
      intro c hc
      have hsep := hall c hc
      simp only [isSeparator, Bool.or_eq_false_iff] at hsep
      exact hsep.1
    simp only [resolveName, splitAt_of_none _ _ hslash]
    exact normalizeSegs_single _ hne1 hne2 hne3

/-! ## Upload followed by listing -/

theorem mem_names_upsert (name : String) (e : Entry) : ∀ (d : Dir),
    name ∈ (upsert name e d).map Prod.fst := by
  intro d
  induction d with
  | nil => simp [upsert]
  | cons kv rest ih =>
    obtain ⟨k, v⟩ := kv
    by_cases hk : k = name
    · simp [upsert, hk]
    · simp only [upsert, hk, if_false, List.map_cons, List.mem_cons]
      exact Or.inr ih

theorem upsert_fresh (name : String) (e : Entry) : ∀ (d : Dir),
    name ∉ d.map Prod.fst → upsert name e d = d ++ [(name, e)] := by
  intro d
  induction d with
  | nil => intro _; rfl
  | cons kv rest ih =>
    obtain ⟨k, v⟩ := kv
    intro h
    simp only [List.map_cons, List.mem_cons, not_or] at h
    have hk : ¬ k = name := fun hk => h.1 hk.symm
    simp [upsert, hk, ih h.2]

/-- C4: after a successful upload of a part with original name `n`, a listing of the
directory answers 200 with a files list holding the entry `{name, url}` of the assigned
stored name, whose url is the `/uploads/` url of that name, and the name ends with `n`. -/
theorem uploaded_file_is_listed (cfg : Config) (now : Nat) (root : Option Dir)
    (req req2 : Request) (h : (postUpload cfg now root req).2.status = 200) :
    ∃ f items, req.file = some f ∧
      (postUpload cfg now root req).2 =
        uploadHandler req (some ⟨f.fieldname, f.originalname, f.encoding, f.mimetype,
          filename now f, f.content.length⟩) ∧
      getFiles (postUpload cfg now root req).1 req2 =
        ⟨200, .json (.obj [("files", .arr items)])⟩ ∧
      JsVal.obj [("name", .str (filename now f)),
        ("url", .str (req2.protocol ++ "://" ++ templ req2.host ++ "/uploads/" ++
          filename now f))] ∈ items ∧
      ∃ pre, filename now f = pre ++ f.originalname := by
  obtain ⟨f, d, hf, _, hpost⟩ := postUpload_success cfg now root req h
  refine ⟨f, fileList req2 ((upsert (filename now f) (.file f.content) d).map Prod.fst),
    hf, by rw [hpost], by rw [hpost]; rfl, ?_, ⟨Nat.repr now ++ "-", rfl⟩⟩
  exact List.mem_map.mpr ⟨filename now f, mem_names_upsert _ _ d, rfl⟩

theorem uploaded_file_is_listed_witness :
    (postUpload bareConfig 1700000000000 (some []) (uploadOf (some helloPart))).2.status = 200 ∧
    ∃ f items, (uploadOf (some helloPart)).file = some f ∧
      (postUpload bareConfig 1700000000000 (some []) (uploadOf (some helloPart))).2 =
        uploadHandler (uploadOf (some helloPart)) (some ⟨f.fieldname, f.originalname,
          f.encoding, f.mimetype, filename 1700000000000 f, f.content.length⟩) ∧
      getFiles (postUpload bareConfig 1700000000000 (some [])
          (uploadOf (some helloPart))).1 listingRequest =
        ⟨200, .json (.obj [("files", .arr items)])⟩ ∧
      JsVal.obj [("name", .str (filename 1700000000000 f)),
        ("url", .str (listingRequest.protocol ++ "://" ++ templ listingRequest.host ++
          "/uploads/" ++ filename 1700000000000 f))] ∈ items ∧
      ∃ pre, filename 1700000000000 f = pre ++ f.originalname :=
  ⟨rfl, uploaded_file_is_listed bareConfig 1700000000000 (some [])
    (uploadOf (some helloPart)) listingRequest rfl⟩

/-- C5 (counterexample): an upload whose stored name is already taken succeeds, adds no
entry, and replaces the content of the entry that was there. -/
theorem colliding_upload_overwrites :
    (postUpload bareConfig 1700000000000
      (some [("1700000000000-a.txt", .file [104, 101, 108, 108, 111])])
      (uploadOf (some worldPart))).2.status = 200 ∧
    (postUpload bareConfig 1700000000000
      (some [("1700000000000-a.txt", .file [104, 101, 108, 108, 111])])
      (uploadOf (some worldPart))).1 =
        some [("1700000000000-a.txt", .file [119, 111, 114, 108, 100])] := by
  exact ⟨rfl, rfl⟩

/-- C5 (amended): when no entry of the directory already carries the assigned stored name,
a successful upload leaves every previous entry in place and unchanged and adds exactly one
entry: the stored name with the uploaded payload. -/
theorem fresh_upload_adds_one_entry (cfg : Config) (now : Nat) (d : Dir) (req : Request)
    (f : FilePart) (hf : req.file = some f)
    (hok : (postUpload cfg now (some d) req).2.status = 200)
    (hfresh : filename now f ∉ d.map Prod.fst) :
    (postUpload cfg now (some d) req).1 = some (d ++ [(filename now f, .file f.content)]) := by
  obtain ⟨g, d0, hg, hd0, hpost⟩ := postUpload_success cfg now (some d) req hok
  rw [hf] at hg
  cases hg
  cases hd0
  rw [hpost, upsert_fresh _ _ d hfresh]

theorem fresh_upload_adds_one_entry_witness :
    (uploadOf (some worldPart)).file = some worldPart ∧
    (postUpload bareConfig 1700000000001
      (some [("1700000000000-a.txt", .file [104, 101, 108, 108, 111])])
      (uploadOf (some worldPart))).1 =
        some ([("1700000000000-a.txt", .file [104, 101, 108, 108, 111])] ++
          [(filename 1700000000001 worldPart, .file worldPart.content)]) :=
  ⟨rfl, fresh_upload_adds_one_entry bareConfig 1700000000001
    [("1700000000000-a.txt", .file [104, 101, 108, 108, 111])]
    (uploadOf (some worldPart)) worldPart rfl rfl (by decide)⟩

/-! ## The listing route -/

/-- C6: for protocol `p`, host `h` and stored name `s`, the url in the upload response and
the url the listing reports for the entry named `s` are both `p://h/uploads/s`. -/
theorem upload_and_listing_url_agree (req : Request) (p h s : String) (file : MulterFile)
    (files : List String) (hp : req.protocol = p) (hh : req.host = some h)
    (hs : file.filename = s) (hmem : s ∈ files) :
    (∃ body, uploadHandler req (some file) = ⟨200, .json body⟩ ∧
      body.field "url" = some (.str (p ++ "://" ++ h ++ "/uploads/" ++ s))) ∧
    ∃ items, listCallback req (.ok files) = ⟨200, .json (.obj [("files", .arr items)])⟩ ∧
      JsVal.obj [("name", .str s), ("url", .str (p ++ "://" ++ h ++ "/uploads/" ++ s))] ∈ items ∧
      ∀ e ∈ items, e.field "name" = some (.str s) →
        e.field "url" = some (.str (p ++ "://" ++ h ++ "/uploads/" ++ s)) := by
  subst hp hs
  refine ⟨⟨_, rfl, ?_⟩, fileList req files, rfl, ?_, ?_⟩
  · simp [JsVal.field, List.lookup, fileUrl, hh, templ]
  · refine List.mem_map.mpr ⟨file.filename, hmem, ?_⟩
    simp [hh, templ]
  · intro e he hname
    obtain ⟨n, _, hn⟩ := List.mem_map.mp he
    subst hn
    simp only [JsVal.field, List.lookup] at hname ⊢
    have hnm : n = file.filename := by simpa using hname
    subst hnm
    simp [hh, templ]

theorem upload_and_listing_url_agree_witness :
    (uploadOf (some helloPart)).host = some "localhost:3000" ∧
    (∃ body, uploadHandler (uploadOf (some helloPart))
        (some ⟨"file", "a.txt", "7bit", "text/plain", "1700000000000-a.txt", 5⟩) =
          ⟨200, .json body⟩ ∧
      body.field "url" =
        some (.str ("http" ++ "://" ++ "localhost:3000" ++ "/uploads/" ++
          "1700000000000-a.txt"))) ∧
    ∃ items, listCallback (uploadOf (some helloPart)) (.ok ["1700000000000-a.txt"]) =
        ⟨200, .json (.obj [("files", .arr items)])⟩ ∧
      JsVal.obj [("name", .str "1700000000000-a.txt"),
        ("url", .str ("http" ++ "://" ++ "localhost:3000" ++ "/uploads/" ++
          "1700000000000-a.txt"))] ∈ items ∧
      ∀ e ∈ items, e.field "name" = some (.str "1700000000000-a.txt") →
        e.field "url" = some (.str ("http" ++ "://" ++ "localhost:3000" ++ "/uploads/" ++
          "1700000000000-a.txt")) :=
  ⟨rfl, upload_and_listing_url_agree (uploadOf (some helloPart)) "http" "localhost:3000"
    "1700000000000-a.txt" ⟨"file", "a.txt", "7bit", "text/plain", "1700000000000-a.txt", 5⟩
    ["1700000000000-a.txt"] rfl rfl rfl (by decide)⟩

/-- C7 (counterexample): a subdirectory of the upload directory is reported in the files
list like any regular file. -/
theorem subdirectory_is_listed :
    lookupPath [("1700000000000-a.txt", .file [104, 105]), ("sub", .dir [])] ["sub"] =
      some (.dir []) ∧
    readdir (some [("1700000000000-a.txt", .file [104, 105]), ("sub", .dir [])]) =
      .ok ["1700000000000-a.txt", "sub"] ∧
    getFiles (some [("1700000000000-a.txt", .file [104, 105]), ("sub", .dir [])])
        listingRequest =
      ⟨200, .json (.obj [("files", .arr [
        .obj [("name", .str "1700000000000-a.txt"),
          ("url", .str "http://localhost:3000/uploads/1700000000000-a.txt")],
        .obj [("name", .str "sub"),
          ("url", .str "http://localhost:3000/uploads/sub")]])])⟩ := by
  exact ⟨rfl, rfl, rfl⟩

/-- C7 (amended): the files list returned by `GET /api/files` has one entry, in
enumeration order, for every enumerated name, regular file or not: nothing is left out and
nothing else is reported. -/
theorem listing_reports_every_entry (req : Request) (files : List String) (d : Dir) :
    listCallback req (.ok files) =
      ⟨200, .json (.obj [("files", .arr (files.map fun file =>
        JsVal.obj [("name", .str file),
          ("url", .str (req.protocol ++ "://" ++ templ req.host ++ "/uploads/" ++ file))]))])⟩ ∧
    getFiles (some d) req = listCallback req (.ok (d.map Prod.fst)) ∧
    (fileList req files).length = files.length ∧
    (fileList req files).map (JsVal.field "name") = files.map fun file => some (.str file) := by
  refine ⟨rfl, rfl, by simp [fileList], ?_⟩
  simp [fileList, JsVal.field, List.lookup]

/-- C8: when enumeration fails the listing answers 500 with `{error: 'Unable to scan
files'}`, a body without a `files` field; when it succeeds the listing answers 200; so the
status is 500 exactly when enumeration fails. -/
theorem listing_failure (req : Request) (err : JsError) (files : List String)
    (result : Except JsError (List String)) (root : Option Dir) :
    listCallback req (.error err) =
      ⟨500, .json (.obj [("error", .str "Unable to scan files")])⟩ ∧
    (JsVal.obj [("error", .str "Unable to scan files")]).field "files" = none ∧
    (listCallback req (.ok files)).status = 200 ∧
    ((listCallback req result).status = 500 ↔ ∃ e, result = .error e) ∧
    ((getFiles root req).status = 500 ↔ ∃ e, readdir root = .error e) := by
  have hiff : ∀ r : Except JsError (List String),
      (listCallback req r).status = 500 ↔ ∃ e, r = .error e := by
    intro r
    cases r with
    | error e => simp [listCallback]
    | ok fs => simp [listCallback]
  exact ⟨rfl, rfl, rfl, hiff result, hiff (readdir root)⟩

/-- C9: the listing of an upload directory without entries answers 200 with
`{files: []}`. -/
theorem listing_of_empty_directory (cfg : Config) (now : Nat) (iso : String)
    (protocol : String) (host : Option String) (file : Option FilePart) :
    readdir (some []) = .ok [] ∧
    app cfg now iso (some []) ⟨.GET, .apiFiles, protocol, host, file⟩ =
      (some [], ⟨200, .json (.obj [("files", .arr [])])⟩) := by
  exact ⟨rfl, rfl⟩

/-! ## The retrieval mount -/

theorem lookupPath_append_none (x : String) : ∀ (segs : List String) (d : Dir),
    lookupPath d segs = none → lookupPath d (segs ++ [x]) = none := by
  intro segs
  induction segs with
  | nil => intro d h; simp [lookupPath] at h
  | cons n rest ih =>
    intro d h
    cases rest with
    | nil =>
      simp only [lookupPath] at h
      simp [lookupPath, h]
    | cons m rest =>
      simp only [lookupPath, List.cons_append] at h ⊢
      cases hl : d.lookup n with
      | none => rfl
      | some e =>
        cases e with
        | file c => rfl
        | dir children =>
          simp only [hl] at h
          exact ih children h

/-- Whatever the static middleware serves is the content of a regular file found below
the directory it is mounted on. -/
theorem serveStatic_served (root : Option Dir) (name : String) (content : Bytes)
    (h : serveStatic root name = .served content) :
    ∃ d path, root = some d ∧ lookupPath d path = some (.file content) := by
  unfold serveStatic at h
  simp only at h
  split at h
  · cases h
  · split at h
    · cases h
    · split at h
      · cases h
      · cases root with
        | none => cases h
        | some d =>
          simp only at h
          split at h
          · split at h
            · rename_i c hc
              cases h
              exact ⟨d, _, rfl, hc⟩
            · cases h
          · split at h
            · rename_i c hc
              cases h
              exact ⟨d, _, rfl, hc⟩
            · cases h
            · cases h

theorem serveStatic_up (root : Option Dir) (name : String)
    (h : isUpPath (resolveName name) = true) : serveStatic root name = .next := by
  unfold serveStatic
  simp only [h, if_true]
  split <;> rfl

theorem serveStatic_missing (d : Dir) (name : String)
    (h : lookupPath d ((resolveName name).map String.mk) = none) :
    serveStatic (some d) name = .next := by
  unfold serveStatic
  simp only [h, lookupPath_append_none "index.html" _ d h]
  split
  · rfl
  · split
    · rfl
    · split
      · rfl
      · split <;> rfl

theorem serveStatic_hit (d : Dir) (name : String) (content : Bytes)
    (hnul : name.data.contains (Char.ofNat 0) = false)
    (hup : isUpPath (resolveName name) = false)
    (hdot : containsDotFile (resolveName name) = false)
    (hne : name.data ≠ []) (hslash : name.data.getLast? ≠ some '/')
    (h : lookupPath d ((resolveName name).map String.mk) = some (.file content)) :
    serveStatic (some d) name = .served content := by
  unfold serveStatic
  simp only [hnul, hup, hdot, hne, hslash, h, false_or, if_false, Bool.false_eq_true]

theorem app_fetch (cfg : Config) (now : Nat) (iso : String) (root : Option Dir)
    (name protocol : String) (host : Option String) (file : Option FilePart)
    (hcfg : cfg.frontend = none) :
    app cfg now iso root ⟨.GET, .uploads name, protocol, host, file⟩ =
      (root, match serveStatic root name with
        | .served content => ⟨200, .raw content⟩
        | .redirected => ⟨301, .redirect ("/uploads/" ++ name ++ "/")⟩
        | .next => ⟨404, .json (.obj [("error", .str "Not found")])⟩) := by
  simp only [app]
  cases serveStatic root name with
  | served c => rfl
  | redirected => rfl
  | next => simp [fallback, hcfg]

/-! ## Unmatched requests and the error middleware -/

/-- Without a client bundle the route table answers 404 `{error: 'Not found'}` to every
request that falls under none of its registrations. -/
theorem app_unmatched (cfg : Config) (now : Nat) (iso : String)
    (root : Option Dir) (req : Request) (hcfg : cfg.frontend = none)
    (hm : matchesRoute req = false) :
    app cfg now iso root req =
      (root, ⟨404, .json (.obj [("error", .str "Not found")])⟩) := by
  obtain ⟨m, t, p, h, f⟩ := req
  cases t <;> cases m <;> simp [matchesRoute] at hm <;> simp [app, fallback, hcfg]

/-- C12: for every error and every value of `NODE_ENV`, the error-handling middleware
answers 500 with `error: 'Internal server error'`; its `message` field is the error's
message exactly when `NODE_ENV` is `development`, and `undefined` otherwise. -/
theorem error_detail_only_in_development (cfg : Config) (err : JsError) :
    (errorHandler cfg err).status = 500 ∧
    ∃ body, (errorHandler cfg err).body = .json body ∧
      body.field "error" = some (.str "Internal server error") ∧
      body.field "message" =
        (if cfg.nodeEnv = some "development" then some (.str err.message)
          else some .undefined) ∧
      (body.field "message" = some (.str err.message) ↔ cfg.nodeEnv = some "development") := by
  refine ⟨rfl, _, rfl, rfl, ?_, ?_⟩
  · by_cases h : cfg.nodeEnv = some "development" <;> simp [JsVal.field, List.lookup, h]
  · by_cases h : cfg.nodeEnv = some "development" <;> simp [JsVal.field, List.lookup, h]

/-! ## The client upload controller -/

theorem step_dragActive (s : UiState) (e : ClientEvent) :
    (step s e).dragActive = (dragSignal e).getD s.dragActive := by
  cases e with
  | mount => rfl
  | drag type =>
    by_cases h1 : type = "dragenter" ∨ type = "dragover"
    · simp [step, effectsOf, handleDrag, dragSignal, h1, run, applyEffect]
    · by_cases h2 : type = "dragleave"
      · simp [step, effectsOf, handleDrag, dragSignal, h1, h2, run, applyEffect]
      · simp [step, effectsOf, handleDrag, dragSignal, h1, h2, run]
  | drop files =>
    cases hf : firstFile files <;>
      simp [step, effectsOf, handleDrop, handleFileStart, dragSignal, hf, run, applyEffect]
  | change files =>
    cases hf : firstFile files <;>
      simp [step, effectsOf, handleChange, handleFileStart, dragSignal, hf, run, applyEffect]
  | uploadSettled file outcome => cases outcome <;> rfl
  | listSettled outcome =>
    cases outcome with
    | ok files => cases files <;> rfl
    | threw => rfl
    | notOk => rfl
    | badBody => rfl
    | nullBody => rfl

theorem runEvents_dragActive : ∀ (events : List ClientEvent) (s : UiState),
    (runEvents s events).dragActive = (lastDragSignal events).getD s.dragActive := by
  intro events
  induction events with
  | nil => intro s; rfl
  | cons e rest ih =>
    intro s
    have hrun : runEvents s (e :: rest) = runEvents (step s e) rest := rfl
    rw [hrun, ih (step s e), step_dragActive]
    simp only [lastDragSignal]
    cases lastDragSignal rest <;> rfl

/-- C13: from every prior state a `dragenter` or `dragover` leaves `dragActive` true, a
`dragleave` and a drop leave it false, a drag-handler event of any other type leaves it
unchanged; so after a sequence of events `dragActive` is what the last of these events
said, and from the initial state it is true exactly when that last event was a `dragenter`
or `dragover`. -/
theorem drag_state (s : UiState) (type : String) (files : Option (List ClientFile))
    (events : List ClientEvent) :
    (type = "dragenter" ∨ type = "dragover" → (step s (.drag type)).dragActive = true) ∧
    (type = "dragleave" → (step s (.drag type)).dragActive = false) ∧
    (step s (.drop files)).dragActive = false ∧
    (¬ (type = "dragenter" ∨ type = "dragover" ∨ type = "dragleave") →
      (step s (.drag type)).dragActive = s.dragActive) ∧
    (runEvents s events).dragActive = (lastDragSignal events).getD s.dragActive ∧
    ((runEvents initialState events).dragActive = true ↔ lastDragSignal events = some true) := by
  refine ⟨?_, ?_, ?_, ?_, runEvents_dragActive events s, ?_⟩
  · intro h
    rw [step_dragActive]
    simp [dragSignal, h]
  · intro h
    subst h
    rw [step_dragActive]
    rfl
  · rw [step_dragActive]
    rfl
  · intro h
    rw [step_dragActive]
    have h1 : ¬ (type = "dragenter" ∨ type = "dragover") := fun h' =>
      h (h'.elim Or.inl (fun h'' => Or.inr (Or.inl h'')))
    have h2 : ¬ type = "dragleave" := fun h' => h (Or.inr (Or.inr h'))
    simp [dragSignal, h1, h2]
  · rw [runEvents_dragActive]
    cases lastDragSignal events with
    | none => simp [initialState]
    | some b => simp

theorem drag_state_witness :
    (step ⟨[], false, ""⟩ (.drag "dragover")).dragActive = true ∧
    (step ⟨[], true, ""⟩ (.drag "dragleave")).dragActive = false ∧
    (step ⟨[], true, ""⟩ (.drag "dragend")).dragActive = true ∧
    (runEvents initialState [.drag "dragenter", .change (some [photoFile]),
      .drag "dragover", .uploadSettled photoFile .ok]).dragActive = true :=
  ⟨(drag_state ⟨[], false, ""⟩ "dragover" none []).1 (Or.inr rfl),
    (drag_state ⟨[], true, ""⟩ "dragleave" none []).2.1 rfl,
    (drag_state ⟨[], true, ""⟩ "dragend" none []).2.2.2.1 (by decide),
    (drag_state initialState "dragenter" none [.drag "dragenter", .change (some [photoFile]),
      .drag "dragover", .uploadSettled photoFile .ok]).2.2.2.2.2.mpr (by decide)⟩

/-- C14: a drop or a file selection carrying a non-empty file list starts exactly one
upload, that of the first file of the list; one carrying no list or an empty list starts
no upload and leaves the status message unchanged. -/
theorem first_file_only (s : UiState) (file : ClientFile) (others : List ClientFile) :
    uploadsIn (effectsOf (.drop (some (file :: others)))) = [file] ∧
    uploadsIn (effectsOf (.change (some (file :: others)))) = [file] ∧
    uploadsIn (effectsOf (.drop none)) = [] ∧
    uploadsIn (effectsOf (.drop (some []))) = [] ∧
    uploadsIn (effectsOf (.change none)) = [] ∧
    uploadsIn (effectsOf (.change (some []))) = [] ∧
    (step s (.drop none)).message = s.message ∧
    (step s (.drop (some []))).message = s.message ∧
    (step s (.change none)).message = s.message ∧
    (step s (.change (some []))).message = s.message := by
  refine ⟨rfl, rfl, rfl, rfl, rfl, rfl, rfl, rfl, rfl, rfl⟩

/-- C15: `handleFile` for a file named X first sets the message to `Uploading X...` and
then sends the request; when the request ends with an ok response whose body parses, the
message becomes `Successfully uploaded X!` and `fetchFiles` is called exactly once; when
the request throws, the response is not ok or the body does not parse, the message becomes
`Upload failed. Please try again.` and `fetchFiles` is not called; in every case the
displayed file list is left as it was by `handleFile`. -/
theorem handleFile_outcomes (s : UiState) (file : ClientFile) (outcome : UploadOutcome) :
    (∃ rest, handleFile file outcome =
      .setMessage ("Uploading " ++ file.name ++ "...") :: .sendUpload file :: rest) ∧
    (run s (handleFileStart file)).message = "Uploading " ++ file.name ++ "..." ∧
    (run s (handleFile file .ok)).message = "Successfully uploaded " ++ file.name ++ "!" ∧
    refreshesIn (handleFile file .ok) = 1 ∧
    (run s (handleFile file .threw)).message = "Upload failed. Please try again." ∧
    (run s (handleFile file .notOk)).message = "Upload failed. Please try again." ∧
    (run s (handleFile file .badBody)).message = "Upload failed. Please try again." ∧
    refreshesIn (handleFile file .threw) = 0 ∧
    refreshesIn (handleFile file .notOk) = 0 ∧
    refreshesIn (handleFile file .badBody) = 0 ∧
    (run s (handleFile file outcome)).files = s.files ∧
    uploadsIn (handleFile file outcome) = [file] := by
  refine ⟨⟨handleFileSettled file outcome, rfl⟩, rfl, rfl, rfl, rfl, rfl, rfl, rfl, rfl, rfl,
    ?_, ?_⟩
  · cases outcome <;> rfl
  · cases outcome <;> rfl

/-- C16: the stored-name rule, the decimal timestamp followed by a dash and the original
name, is injective: equal stored names come from equal timestamps and equal original
names; so two stored names are equal exactly when both agree, and uploads with different
original names never collide. -/
theorem stored_name_injective (t1 t2 : Nat) (f g : FilePart) :
    filename t1 f = Nat.repr t1 ++ "-" ++ f.originalname ∧
    decodeDigits (Nat.repr t1).data = t1 ∧
    (filename t1 f = filename t2 g → t1 = t2 ∧ f.originalname = g.originalname) ∧
    (filename t1 f = filename t2 g ↔ t1 = t2 ∧ f.originalname = g.originalname) ∧
    (f.originalname ≠ g.originalname → filename t1 f ≠ filename t2 g) := by
  refine ⟨rfl, (repr_data_spec t1).1, storedName_split t1 t2 f g,
    ⟨storedName_split t1 t2 f g, ?_⟩, ?_⟩
  · rintro ⟨ht, hn⟩
    simp [filename, ht, hn]
  · intro hne heq
    exact hne (storedName_split t1 t2 f g heq).2

theorem stored_name_injective_witness :
    filename 1700000000000 helloPart = filename 1700000000000 worldPart ∧
    ((1700000000000 : Nat) = 1700000000000 ∧
      helloPart.originalname = worldPart.originalname) ∧
    filename 1700000000000 helloPart ≠ filename 1700000000000 otherPart :=
  ⟨rfl, (stored_name_injective 1700000000000 1700000000000 helloPart worldPart).2.2.1 rfl,
    (stored_name_injective 1700000000000 1700000000000 helloPart otherPart).2.2.2.2
      (by decide)⟩

/-! ## The stored name of a client-supplied file name -/

theorem splitAt_ne_nil (p : Char → Bool) : ∀ (l : List Char), splitAt p l ≠ [] := by
  intro l
  induction l with
  | nil => simp [splitAt]
  | cons c cs ih =>
    by_cases hc : p c = true
    · simp [splitAt, hc]
    · cases hs : splitAt p cs with
      | nil => exact absurd hs ih
      | cons seg segs => simp [splitAt, hc, hs]

/-- No piece of a split holds a character the split is made at. -/
theorem splitAt_clean (p : Char → Bool) : ∀ (l : List Char) (seg : List Char),
    seg ∈ splitAt p l → ∀ c ∈ seg, p c = false := by
  intro l
  induction l with
  | nil =>
    intro seg hseg c hc
    simp only [splitAt, List.mem_singleton] at hseg
    subst hseg
    simp at hc
  | cons x xs ih =>
    intro seg hseg c hc
    by_cases hx : p x = true
    · simp only [splitAt, hx, if_true, List.mem_cons] at hseg
      rcases hseg with hseg | hseg
      · subst hseg
        simp at hc
      · exact ih seg hseg c hc
    · obtain ⟨first, others, hs⟩ : ∃ first others, splitAt p xs = first :: others := by
        cases hs : splitAt p xs with
        | nil => exact absurd hs (splitAt_ne_nil p xs)
        | cons first others => exact ⟨first, others, rfl⟩
      have hcut : splitAt p (x :: xs) = (x :: first) :: others := by
        simp [splitAt, hx, hs]
      rw [hcut] at hseg
      rcases List.mem_cons.mp hseg with hseg | hseg
      · subst hseg
        rcases List.mem_cons.mp hc with hc | hc
        · subst hc
          simpa using hx
        · exact ih first (by rw [hs]; exact List.mem_cons_self _ _) c hc
      · exact ih seg (by rw [hs]; exact List.mem_cons_of_mem _ hseg) c hc

theorem getLastD_mem_splitAt (p : Char → Bool) (l : List Char) :
    (splitAt p l).getLastD [] ∈ splitAt p l := by
  cases hs : splitAt p l with
  | nil => exact absurd hs (splitAt_ne_nil p l)
  | cons seg segs =>
    rw [List.getLastD_eq_getLast?, List.getLast?_eq_getLast _ (List.cons_ne_nil _ _)]
    exact List.getLast_mem _

/-- The base name the parser keeps has no path separator. -/
theorem basename_no_separator (clientName : String) :
    hasSeparator (basename clientName) = false := by
  unfold basename
  split
  · rfl
  · have hclean := splitAt_clean isSeparator clientName.data _
      (getLastD_mem_splitAt isSeparator clientName.data)
    simpa [hasSeparator, segments] using hclean

/-- The parser cuts a climbing file name down to its last segment, and a Windows path
likewise. -/
theorem basename_examples :
    basename "/../../etc/passwd" = "passwd" ∧
    basename "C:\\Users\\me\\a.txt" = "a.txt" ∧
    basename "a.txt" = "a.txt" ∧
    basename "../.." = "" ∧
    filename 1700000000000
      (receivedPart "file" "/../../etc/passwd" "7bit" "text/plain" [120]) =
        "1700000000000-passwd" := by
  refine ⟨by decide, by decide, by decide, by decide, by decide⟩

/-- C3: for every file name supplied by the client, the stored name is the decimal
timestamp, a dash and the sanitized original name (the base name the parser keeps); it
contains no path separator and no `..` segment, is a single path segment other than `.`
and `..`, and joined to the storage root it resolves to a direct child of the root. -/
theorem stored_name_is_sanitized (now : Nat) (fieldname clientName encoding mimetype : String)
    (content : Bytes) :
    (receivedPart fieldname clientName encoding mimetype content).originalname =
      basename clientName ∧
    hasSeparator (basename clientName) = false ∧
    filename now (receivedPart fieldname clientName encoding mimetype content) =
      Nat.repr now ++ "-" ++ basename clientName ∧
    hasSeparator (filename now
      (receivedPart fieldname clientName encoding mimetype content)) = false ∧
    hasDotDotSegment (filename now
      (receivedPart fieldname clientName encoding mimetype content)) = false ∧
    isDirectChildName (filename now
      (receivedPart fieldname clientName encoding mimetype content)) ∧
    resolveName (filename now (receivedPart fieldname clientName encoding mimetype content)) =
      [(filename now (receivedPart fieldname clientName encoding mimetype content)).data] := by
  have hbase := basename_no_separator clientName
  have hrule := (stored_name_verbatim now
    (receivedPart fieldname clientName encoding mimetype content)).2 hbase
  exact ⟨rfl, hbase, rfl, hrule.1, hrule.2.1, hrule.2.2.1, hrule.2.2.2⟩

/-! ## Retrieval under the mount -/

theorem isUpPath_false (segs : List (List Char)) (h : isUpPath segs = false) :
    ∀ seg ∈ segs, seg ≠ ['.', '.'] := by
  intro seg hseg heq
  subst heq
  have hup : isUpPath segs = true := by
    unfold isUpPath
    exact List.any_eq_true.mpr ⟨['.', '.'], hseg, by decide⟩
  rw [h] at hup
  exact absurd hup (by decide)

theorem no_dotdot_names (segs : List (List Char)) (h : isUpPath segs = false) :
    (∀ s ∈ segs.map String.mk, s ≠ "..") ∧
    ∀ s ∈ segs.map String.mk ++ ["index.html"], s ≠ ".." := by
  have hmap : ∀ s ∈ segs.map String.mk, s ≠ ".." := by
    intro s hs heq
    obtain ⟨seg, hseg, hmk⟩ := List.mem_map.mp hs
    have hdata : seg = ['.', '.'] := by
      have := congrArg String.data (hmk.trans heq)
      simpa using this
    exact isUpPath_false segs h seg hseg hdata
  refine ⟨hmap, ?_⟩
  intro s hs
  rcases List.mem_append.mp hs with hs | hs
  · exact hmap s hs
  · simp only [List.mem_singleton] at hs
    subst hs
    decide

/-- The answer of the static middleware once its three refusals are out of the way. -/
theorem serveStatic_eq (d : Dir) (name : String)
    (hnul : name.data.contains (Char.ofNat 0) = false)
    (hup : isUpPath (resolveName name) = false)
    (hdot : containsDotFile (resolveName name) = false) :
    serveStatic (some d) name =
      if name.data = [] ∨ name.data.getLast? = some '/' then
        match lookupPath d ((resolveName name).map String.mk ++ ["index.html"]) with
        | some (.file content) => .served content
        | _ => .next
      else
        match lookupPath d ((resolveName name).map String.mk) with
        | some (.file content) => .served content
        | some (.dir _) => .redirected
        | none => .next := by
  unfold serveStatic
  simp only [hnul, hup, hdot, if_false, Bool.false_eq_true]

theorem serveStatic_refused (root : Option Dir) (name : String)
    (h : name.data.contains (Char.ofNat 0) = true ∨ isUpPath (resolveName name) = true ∨
      containsDotFile (resolveName name) = true) : serveStatic root name = .next := by
  unfold serveStatic
  simp only
  by_cases hnul : name.data.contains (Char.ofNat 0) = true
  · simp only [hnul, if_true]
  · by_cases hup : isUpPath (resolveName name) = true
    · simp only [hnul, hup, if_true, if_false, Bool.false_eq_true]
    · have hdot : containsDotFile (resolveName name) = true := by
        rcases h with h | h | h
        · exact absurd h hnul
        · exact absurd h hup
        · exact h
      simp only [hnul, hup, hdot, if_true, if_false, Bool.false_eq_true]

theorem serveStatic_none (name : String) : serveStatic none name = .next := by
  unfold serveStatic
  simp only
  split
  · rfl
  · split
    · rfl
    · split <;> rfl

/-- What the static middleware serves is the content of a regular file reached from the
mounted directory through a path without any `..` segment. -/
theorem serveStatic_served_inside (root : Option Dir) (name : String) (content : Bytes)
    (h : serveStatic root name = .served content) :
    ∃ d path, root = some d ∧ (∀ s ∈ path, s ≠ "..") ∧
      lookupPath d path = some (.file content) := by
  cases root with
  | none => rw [serveStatic_none] at h; cases h
  | some d =>
    by_cases hnul : name.data.contains (Char.ofNat 0) = true
    · rw [serveStatic_refused _ _ (Or.inl hnul)] at h; cases h
    · by_cases hup : isUpPath (resolveName name) = true
      · rw [serveStatic_refused _ _ (Or.inr (Or.inl hup))] at h; cases h
      · by_cases hdot : containsDotFile (resolveName name) = true
        · rw [serveStatic_refused _ _ (Or.inr (Or.inr hdot))] at h; cases h
        · have hup' : isUpPath (resolveName name) = false := by simpa using hup
          have hnames := no_dotdot_names (resolveName name) hup'
          rw [serveStatic_eq d name (by simpa using hnul) hup' (by simpa using hdot)] at h
          split at h
          · split at h
            · rename_i c hc
              cases h
              exact ⟨d, _, rfl, hnames.2, hc⟩
            · cases h
          · split at h
            · rename_i c hc
              cases h
              exact ⟨d, _, rfl, hnames.1, hc⟩
            · cases h
            · cases h

theorem resolveName_empty (name : String) (h : name.data = []) : resolveName name = [] := by
  unfold resolveName
  rw [h]
  rfl

theorem serveStatic_found (d : Dir) (name : String) (content : Bytes)
    (hnul : name.data.contains (Char.ofNat 0) = false)
    (hup : isUpPath (resolveName name) = false)
    (hdot : containsDotFile (resolveName name) = false)
    (hslash : name.data.getLast? ≠ some '/')
    (h : lookupPath d ((resolveName name).map String.mk) = some (.file content)) :
    serveStatic (some d) name = .served content := by
  have hne : name.data ≠ [] := by
    intro hempty
    rw [resolveName_empty name hempty] at h
    simp [lookupPath] at h
  exact serveStatic_hit d name content hnul hup hdot hne hslash h

theorem app_fetch_any (cfg : Config) (now : Nat) (iso : String) (root : Option Dir)
    (name protocol : String) (host : Option String) (file : Option FilePart) :
    app cfg now iso root ⟨.GET, .uploads name, protocol, host, file⟩ =
      (root, match serveStatic root name with
        | .served content => ⟨200, .raw content⟩
        | .redirected => ⟨301, .redirect ("/uploads/" ++ name ++ "/")⟩
        | .next => fallback cfg ⟨.GET, .uploads name, protocol, host, file⟩) := by
  simp only [app]
  cases serveStatic root name <;> rfl

/-- C10 (counterexample): with a built client bundle, a `GET` under `/uploads/` for a name
that does not exist, and one for a name that climbs out of the storage root, are both
answered 200 with the bundle's `index.html`, not 404; and without a bundle a stored
dotfile, and a stored file asked for with a trailing slash, are answered 404 instead of
their bytes. -/
theorem retrieval_counterexamples :
    lookupPath [] ((resolveName "missing.txt").map String.mk) = none ∧
    (app bundledConfig 1700000000000 "2023-11-14T22:13:20.000Z" (some [])
      (fetchOf "missing.txt")).2 = ⟨200, .raw [60, 33]⟩ ∧
    isUpPath (resolveName "../secret.txt") = true ∧
    (app bundledConfig 1700000000000 "2023-11-14T22:13:20.000Z" (some guardedDir)
      (fetchOf "../secret.txt")).2 = ⟨200, .raw [60, 33]⟩ ∧
    lookupPath guardedDir ((resolveName ".env").map String.mk) = some (.file [83, 61, 49]) ∧
    (app bareConfig 1700000000000 "2023-11-14T22:13:20.000Z" (some guardedDir)
      (fetchOf ".env")).2 = ⟨404, .json (.obj [("error", .str "Not found")])⟩ ∧
    lookupPath guardedDir ((resolveName "1700000000000-a.txt/").map String.mk) =
      some (.file [104, 101, 108, 108, 111]) ∧
    (app bareConfig 1700000000000 "2023-11-14T22:13:20.000Z" (some guardedDir)
      (fetchOf "1700000000000-a.txt/")).2 =
        ⟨404, .json (.obj [("error", .str "Not found")])⟩ := by
  refine ⟨rfl, rfl, by decide, rfl, rfl, rfl, rfl, rfl⟩

/-- C10 (amended): a `GET /uploads/{name}` never changes the directory.  With or without a
client bundle, a name without NUL character, dotfile segment or trailing slash that
resolves inside the storage root to a stored regular file is answered 200 with that
file's bytes.  When no client bundle has been built, a name that resolves outside the
storage root, a name with a NUL character or a dotfile segment, any name while the root is
missing, and a name that resolves to no entry are answered 404 `{error: 'Not found'}`, and
every 200 answer carries the bytes of a regular file reached from the storage root through
a path without any `..` segment. -/
theorem retrieval_under_uploads (cfg : Config) (now : Nat) (iso : String)
    (root : Option Dir) (name protocol : String) (host : Option String)
    (file : Option FilePart) :
    (app cfg now iso root ⟨.GET, .uploads name, protocol, host, file⟩).1 = root ∧
    (∀ d content, root = some d → name.data.contains (Char.ofNat 0) = false →
      isUpPath (resolveName name) = false → containsDotFile (resolveName name) = false →
      name.data.getLast? ≠ some '/' →
      lookupPath d ((resolveName name).map String.mk) = some (.file content) →
      (app cfg now iso root ⟨.GET, .uploads name, protocol, host, file⟩).2 =
        ⟨200, .raw content⟩) ∧
    (cfg.frontend = none →
      ((isUpPath (resolveName name) = true ∨ name.data.contains (Char.ofNat 0) = true ∨
          containsDotFile (resolveName name) = true ∨ root = none ∨
          (∃ d, root = some d ∧ lookupPath d ((resolveName name).map String.mk) = none)) →
        (app cfg now iso root ⟨.GET, .uploads name, protocol, host, file⟩).2 =
          ⟨404, .json (.obj [("error", .str "Not found")])⟩) ∧
      ((app cfg now iso root ⟨.GET, .uploads name, protocol, host, file⟩).2.status = 200 →
        ∃ d path content, root = some d ∧ (∀ s ∈ path, s ≠ "..") ∧
          lookupPath d path = some (.file content) ∧
          (app cfg now iso root ⟨.GET, .uploads name, protocol, host, file⟩).2 =
            ⟨200, .raw content⟩)) := by
  refine ⟨by rw [app_fetch_any], ?_, ?_⟩
  · intro d content hroot hnul hup hdot hslash hfound
    subst hroot
    rw [app_fetch_any, serveStatic_found d name content hnul hup hdot hslash hfound]
  · intro hcfg
    rw [app_fetch cfg now iso root name protocol host file hcfg]
    refine ⟨?_, ?_⟩
    · intro hcase
      have hnext : serveStatic root name = .next := by
        rcases hcase with h | h | h | h | ⟨d, hroot, hmiss⟩
        · exact serveStatic_refused root name (Or.inr (Or.inl h))
        · exact serveStatic_refused root name (Or.inl h)
        · exact serveStatic_refused root name (Or.inr (Or.inr h))
        · subst h
          exact serveStatic_none name
        · subst hroot
          exact serveStatic_missing d name hmiss
      simp only [hnext]
    · intro hstatus
      cases hs : serveStatic root name with
      | served content =>
        obtain ⟨d, path, hroot, hinside, hpath⟩ := serveStatic_served_inside root name content hs
        exact ⟨d, path, content, hroot, hinside, hpath, rfl⟩
      | redirected => simp [hs] at hstatus
      | next => simp [hs] at hstatus

theorem retrieval_under_uploads_witness :
    (app bundledConfig 1700000000000 "2023-11-14T22:13:20.000Z" (some guardedDir)
      ⟨.GET, .uploads "1700000000000-a.txt", "http", some "localhost:3000", none⟩).2 =
        ⟨200, .raw [104, 101, 108, 108, 111]⟩ ∧
    lookupPath guardedDir ["..", "secret.txt"] = some (.file [115, 101, 99]) ∧
    (app bareConfig 1700000000000 "2023-11-14T22:13:20.000Z" (some guardedDir)
      ⟨.GET, .uploads "../secret.txt", "http", some "localhost:3000", none⟩).2 =
        ⟨404, .json (.obj [("error", .str "Not found")])⟩ ∧
    ∃ d path content, some guardedDir = some d ∧ (∀ s ∈ path, s ≠ "..") ∧
      lookupPath d path = some (.file content) ∧
      (app bareConfig 1700000000000 "2023-11-14T22:13:20.000Z" (some guardedDir)
        ⟨.GET, .uploads "1700000000000-a.txt", "http", some "localhost:3000", none⟩).2 =
          ⟨200, .raw content⟩ :=
  ⟨(retrieval_under_uploads bundledConfig 1700000000000 "2023-11-14T22:13:20.000Z"
      (some guardedDir) "1700000000000-a.txt" "http" (some "localhost:3000") none).2.1
      guardedDir [104, 101, 108, 108, 111] rfl (by decide) (by decide) (by decide)
      (by decide) rfl,
    rfl,
    ((retrieval_under_uploads bareConfig 1700000000000 "2023-11-14T22:13:20.000Z"
      (some guardedDir) "../secret.txt" "http" (some "localhost:3000") none).2.2 rfl).1
      (Or.inl (by decide)),
    ((retrieval_under_uploads bareConfig 1700000000000 "2023-11-14T22:13:20.000Z"
      (some guardedDir) "1700000000000-a.txt" "http" (some "localhost:3000") none).2.2
      rfl).2 rfl⟩

/-! ## Requests under no registration -/

theorem matchesRoute_get (m : Method) (t : Target) (p : String) (h : Option String)
    (f : Option FilePart) (hm : isGetLike m = false)
    (ht : t = .health ∨ t = .apiFiles ∨ t = .apiUsers) :
    matchesRoute ⟨m, t, p, h, f⟩ = false := by
  rcases ht with ht | ht | ht <;> subst ht <;> cases m <;> simp_all [isGetLike, matchesRoute]

theorem matchesRoute_post (m : Method) (p : String) (h : Option String)
    (f : Option FilePart) (hm : m ≠ .POST) :
    matchesRoute ⟨m, .apiUpload, p, h, f⟩ = false := by
  cases m <;> simp_all [matchesRoute]

theorem matchesRoute_other (m : Method) (path p : String) (h : Option String)
    (f : Option FilePart) : matchesRoute ⟨m, .other path, p, h, f⟩ = false := by
  cases m <;> rfl

/-- C11 (counterexample): `GET /notfound` falls under no registration, yet with a built
client bundle it is answered 200 with the bundle's `index.html`; and without a bundle an
`OPTIONS /notfound` is answered 204 by `cors()`, and a `GET /notfound` whose body
`express.json()` refuses is answered 500 by the error-handling middleware. -/
theorem unmatched_request_counterexamples :
    registered .GET "/notfound" = false ∧
    (server some bundledConfig 1700000000000 "2023-11-14T22:13:20.000Z" (some [])
      rawNotFound).2 = ⟨200, .raw [60, 33]⟩ ∧
    (server some bareConfig 1700000000000 "2023-11-14T22:13:20.000Z" (some [])
      ⟨.OPTIONS, "/notfound", none, "http", some "localhost:3000", none⟩).2 =
        ⟨204, .empty⟩ ∧
    (server some bareConfig 1700000000000 "2023-11-14T22:13:20.000Z" (some [])
      ⟨.routed .GET, "/notfound", some ⟨"Unexpected token"⟩, "http", some "localhost:3000",
        none⟩).2.status = 500 := by
  refine ⟨by decide, rfl, rfl, rfl⟩

/-- C11 (amended): when no client bundle has been built, every request that is not an
`OPTIONS` request, whose body `express.json()` does not refuse, and whose method and path
fall under none of the registrations, is answered 404 with `{error: 'Not found'}`, and the
upload directory is left as it was. -/
theorem unmatched_request_not_found (decode : String → Option String) (cfg : Config)
    (now : Nat) (iso : String) (root : Option Dir) (raw : RawRequest) (m : Method)
    (hcfg : cfg.frontend = none) (hmethod : raw.method = .routed m)
    (hbody : raw.bodyError = none) (hun : registered m raw.path = false) :
    server decode cfg now iso root raw =
      (root, ⟨404, .json (.obj [("error", .str "Not found")])⟩) := by
  obtain ⟨method, path, bodyError, protocol, host, file⟩ := raw
  simp only at hmethod hbody hun
  subst hmethod hbody
  simp only [registered, Bool.or_eq_false_iff, Bool.and_eq_false_iff] at hun
  obtain ⟨⟨⟨⟨⟨hroot, hrest⟩, hhealth⟩, hupload⟩, hfiles⟩, husers⟩ := hun
  simp only [server]
  by_cases h1 : isRoutePath "/health" path = true
  · have hg : isGetLike m = false := hhealth.resolve_left (by simp [h1])
    simp only [h1, if_true]
    exact app_unmatched cfg now iso root _ hcfg (matchesRoute_get m _ _ _ _ hg (Or.inl rfl))
  · by_cases h2 : isRoutePath "/api/upload" path = true
    · have hp : m ≠ .POST := by
        have := hupload.resolve_left (by simp [h2])
        simpa using this
      simp only [h1, h2, if_true, if_false, Bool.false_eq_true]
      exact app_unmatched cfg now iso root _ hcfg (matchesRoute_post m _ _ _ hp)
    · by_cases h3 : isRoutePath "/api/files" path = true
      · have hg : isGetLike m = false := hfiles.resolve_left (by simp [h3])
        simp only [h1, h2, h3, if_true, if_false, Bool.false_eq_true]
        exact app_unmatched cfg now iso root _ hcfg
          (matchesRoute_get m _ _ _ _ hg (Or.inr (Or.inl rfl)))
      · by_cases h4 : isRoutePath "/api/users" path = true
        · have hg : isGetLike m = false := husers.resolve_left (by simp [h4])
          simp only [h1, h2, h3, h4, if_true, if_false, Bool.false_eq_true]
          exact app_unmatched cfg now iso root _ hcfg
            (matchesRoute_get m _ _ _ _ hg (Or.inr (Or.inr rfl)))
        · have hnone : mountRemainder path = none := by
            cases hr : mountRemainder path with
            | none => rfl
            | some rest => simp [hr] at hrest
          simp only [h1, h2, h3, h4, hroot, hnone, if_false, Bool.false_eq_true]
          cases decode path with
          | none => simp [undecodable, hcfg]
          | some decoded =>
            exact app_unmatched cfg now iso root _ hcfg (matchesRoute_other m _ _ _ _)

theorem unmatched_request_not_found_witness :
    bareConfig.frontend = none ∧ registered .GET rawNotFound.path = false ∧
    server some bareConfig 1700000000000 "2023-11-14T22:13:20.000Z" (some []) rawNotFound =
      (some [], ⟨404, .json (.obj [("error", .str "Not found")])⟩) :=
  ⟨rfl, by decide, unmatched_request_not_found some bareConfig 1700000000000
    "2023-11-14T22:13:20.000Z" (some []) rawNotFound .GET rfl rfl rfl (by decide)⟩

end CloudVault
